import Mathlib

/-!
Shallow embedding of the `queue` Go package: a generic FIFO queue with an
optional capacity bound, configured through functional options.

The embedding translates the source directly:
* `queue` mirrors the `queue[T]` struct (the mutex is a synchronization
  artifact with no sequential content and is omitted);
* `Enqueue`, `Dequeue`, `Size`, `Peek` mirror the four methods, with Go's
  `(value, error)` multiple returns kept as pairs, `nil` errors as `none`,
  and the zero value of `T` as `default`;
* `WithCapacity` mirrors the option constructor in `config.go`; a panic
  raised while an option runs is modelled as `Except.error` carrying the
  panic message, so `newQueue` returns `Except String (queue T)`.
-/

namespace GoQueue

/-- The two exported error values of `errors.go`. -/
inductive QueueError where
  | ErrOverflow
  | ErrUnderflow
deriving DecidableEq, Repr

/-- The `queue[T]` struct from `queue.go` (mutex omitted: it only guards the
fields and has no sequential meaning). -/
structure queue (T : Type) where
  capacity : Int
  items : List T
deriving Repr, DecidableEq

/-- `UnlimitedCapacity = -1` from `config.go`. -/
def UnlimitedCapacity : Int := -1

/-- `Option[T] = func(*queue[T])` from `config.go`; applying an option may
panic, modelled as `Except.error` with the panic message. -/
def QOption (T : Type) : Type := queue T → Except String (queue T)

/-- Body of the closure returned by `WithCapacity(cap)`: panics when
`cap < UnlimitedCapacity`, otherwise sets the capacity field. -/
def WithCapacity {T : Type} (cap : Int) : QOption T :=
  fun q =>
    if cap < UnlimitedCapacity then
      Except.error "cannot specify arbitrary negative capacity"
    else
      Except.ok { q with capacity := cap }

/-- The call `WithCapacity(cap)` itself, in the same panic monad: the Go
function body unconditionally returns a closure, so the call never panics. -/
def WithCapacityCall {T : Type} (cap : Int) : Except String (QOption T) :=
  Except.ok (WithCapacity cap)

/-- `newQueue` from `queue.go`: start from capacity `UnlimitedCapacity`,
apply the options in order, then set `items` to the empty slice.  A panic
inside an option aborts construction. -/
def newQueue {T : Type} (opts : List (QOption T)) : Except String (queue T) :=
  match opts.foldlM (fun q opt => opt q)
      ({ capacity := UnlimitedCapacity, items := [] } : queue T) with
  | Except.error e => Except.error e
  | Except.ok s => Except.ok { s with items := [] }

/-- `Enqueue` from `queue.go`: fails with `ErrOverflow` when the capacity is
bounded and appending would exceed it, otherwise appends to the back.
Returns the Go `error` result (`none` = `nil`) and the updated struct. -/
def Enqueue {T : Type} (q : queue T) (val : T) : Option QueueError × queue T :=
  if q.capacity ≥ 0 ∧ (q.items.length : Int) + 1 > q.capacity then
    (some QueueError.ErrOverflow, q)
  else
    (none, { q with items := q.items ++ [val] })

/-- `Dequeue` from `queue.go`: on an empty queue returns the zero value and
`ErrUnderflow`; otherwise returns `items[0]` and keeps `items[1:]`. -/
def Dequeue {T : Type} [Inhabited T] (q : queue T) :
    (T × Option QueueError) × queue T :=
  match q.items with
  | [] => ((default, some QueueError.ErrUnderflow), q)
  | x :: rest => ((x, none), { q with items := rest })

/-- `Size` from `queue.go`: `len(q.items)` as a Go `int`. -/
def Size {T : Type} (q : queue T) : Int := q.items.length

/-- `Peek` from `queue.go`: reads `items[0]` without any assignment to the
struct; on an empty queue returns the zero value and `ErrUnderflow`. -/
def Peek {T : Type} [Inhabited T] (q : queue T) : T × Option QueueError :=
  match q.items with
  | [] => (default, some QueueError.ErrUnderflow)
  | x :: _ => (x, none)

/-- One call of the public API, for reasoning about operation sequences. -/
inductive QueueOp (T : Type) where
  | enqueue (v : T)
  | dequeue
  | peek
  | size

/-- The queue state after one API call.  `Peek` and `Size` perform no
assignment in the source, so they return the state unchanged. -/
def step {T : Type} [Inhabited T] (q : queue T) : QueueOp T → queue T
  | QueueOp.enqueue v => (Enqueue q v).2
  | QueueOp.dequeue => (Dequeue q).2
  | QueueOp.peek => q
  | QueueOp.size => q

/-- The queue state after a finite sequence of API calls. -/
def run {T : Type} [Inhabited T] (q : queue T) (ops : List (QueueOp T)) : queue T :=
  ops.foldl step q

/-- Number of `Enqueue` calls in `ops` (run from `q`) that return `nil`. -/
def succEnq {T : Type} [Inhabited T] (q : queue T) : List (QueueOp T) → Nat
  | [] => 0
  | op :: rest =>
      (match op with
       | QueueOp.enqueue v => if (Enqueue q v).1 = none then 1 else 0
       | _ => 0) + succEnq (step q op) rest

/-- Number of `Dequeue` calls in `ops` (run from `q`) that return `nil`. -/
def succDeq {T : Type} [Inhabited T] (q : queue T) : List (QueueOp T) → Nat
  | [] => 0
  | op :: rest =>
      (match op with
       | QueueOp.dequeue => if (Dequeue q).1.2 = none then 1 else 0
       | _ => 0) + succDeq (step q op) rest

/-- Enqueue the values of `vs` in order; collect each call's error result
and the final state. -/
def enqueueAll {T : Type} (q : queue T) : List T → List (Option QueueError) × queue T
  | [] => ([], q)
  | v :: vs =>
      let r := Enqueue q v
      let rest := enqueueAll r.2 vs
      (r.1 :: rest.1, rest.2)

/-- Call `Dequeue` `n` times in a row, collecting each `(value, error)`. -/
def dequeueN {T : Type} [Inhabited T] (q : queue T) : Nat → List (T × Option QueueError)
  | 0 => []
  | n + 1 =>
      let r := Dequeue q
      r.1 :: dequeueN r.2 n

example : (Enqueue { capacity := 2, items := [1] } 9).1 = none := by decide
example : (Enqueue { capacity := 1, items := [1] } 9).1 = some QueueError.ErrOverflow := by
  decide
example : (Dequeue (T := Int) { capacity := -1, items := [] }).1.2 =
    some QueueError.ErrUnderflow := by decide
example :
    (enqueueAll (T := Int) { capacity := -1, items := [] } [4, 5, 6]).2.items =
      [4, 5, 6] := by decide
example :
    dequeueN (T := Int) { capacity := -1, items := [4, 5] } 2 = [(4, none), (5, none)] := by
  decide
example : newQueue (T := Int) [WithCapacity 3] =
    Except.ok { capacity := 3, items := [] } := rfl
example : (newQueue (T := Int) [WithCapacity (-2)]).isOk = false := rfl

/-! ### Basic lemmas about the operations -/

/-- Every queue that `newQueue` returns has empty `items`. -/
theorem newQueue_items {T : Type} (opts : List (QOption T)) (q : queue T)
    (h : newQueue opts = Except.ok q) : q.items = [] := by
  unfold newQueue at h
  cases hfold : opts.foldlM (fun q opt => opt q)
      ({ capacity := UnlimitedCapacity, items := [] } : queue T) with
  | error e => rw [hfold] at h; exact absurd h (by simp)
  | ok s =>
      rw [hfold] at h
      cases h
      rfl

/-- `Enqueue` on a queue with unbounded (negative) capacity succeeds and
appends the value. -/
theorem Enqueue_unbounded {T : Type} (q : queue T) (v : T) (h : q.capacity < 0) :
    Enqueue q v = (none, { q with items := q.items ++ [v] }) := by
  unfold Enqueue
  rw [if_neg]
  intro hc
  omega

/-- `Enqueue` on a full bounded queue fails with `ErrOverflow` and returns
the state unchanged. -/
theorem Enqueue_full {T : Type} (q : queue T) (v : T) (h0 : 0 ≤ q.capacity)
    (h : q.capacity ≤ (q.items.length : Int)) :
    Enqueue q v = (some QueueError.ErrOverflow, q) := by
  unfold Enqueue
  rw [if_pos]
  exact ⟨h0, by omega⟩

/-- `Enqueue` on a bounded queue with room succeeds and appends the value. -/
theorem Enqueue_room {T : Type} (q : queue T) (v : T)
    (h : (q.items.length : Int) < q.capacity) :
    Enqueue q v = (none, { q with items := q.items ++ [v] }) := by
  unfold Enqueue
  rw [if_neg]
  intro hc
  omega

/-- Neither branch of `Enqueue` touches the capacity field. -/
theorem Enqueue_capacity {T : Type} (q : queue T) (v : T) :
    (Enqueue q v).2.capacity = q.capacity := by
  unfold Enqueue
  split <;> rfl

/-- Neither branch of `Dequeue` touches the capacity field. -/
theorem Dequeue_capacity {T : Type} [Inhabited T] (q : queue T) :
    (Dequeue q).2.capacity = q.capacity := by
  unfold Dequeue
  cases q.items <;> rfl

/-- No API call changes the capacity field. -/
theorem step_capacity {T : Type} [Inhabited T] (q : queue T) (op : QueueOp T) :
    (step q op).capacity = q.capacity := by
  cases op with
  | enqueue v => exact Enqueue_capacity q v
  | dequeue => exact Dequeue_capacity q
  | peek => rfl
  | size => rfl

/-- No sequence of API calls changes the capacity field. -/
theorem run_capacity {T : Type} [Inhabited T] :
    ∀ (ops : List (QueueOp T)) (q : queue T), (run q ops).capacity = q.capacity := by
  intro ops
  induction ops with
  | nil => intro q; rfl
  | cons op rest ih =>
      intro q
      calc (run q (op :: rest)).capacity = (run (step q op) rest).capacity := rfl
        _ = (step q op).capacity := ih (step q op)
        _ = q.capacity := step_capacity q op

/-- Enqueuing a list into an unbounded queue succeeds at every step and
appends the list to the stored items. -/
theorem enqueueAll_unbounded {T : Type} :
    ∀ (vs : List T) (q : queue T), q.capacity < 0 →
      enqueueAll q vs = (vs.map fun _ => none, { q with items := q.items ++ vs }) := by
  intro vs
  induction vs with
  | nil => intro q h; simp [enqueueAll]
  | cons v vs ih =>
      intro q h
      have he := Enqueue_unbounded q v h
      have hrest := ih { q with items := q.items ++ [v] } h
      simp [enqueueAll, he, hrest]

/-- Dequeuing exactly `length` times from a queue holding `l` returns the
elements of `l` in order, each with a `nil` error. -/
theorem dequeueN_drain {T : Type} [Inhabited T] :
    ∀ (l : List T) (q : queue T), q.items = l →
      dequeueN q l.length = l.map (fun v => (v, none)) := by
  intro l
  induction l with
  | nil => intro q h; simp [dequeueN]
  | cons x xs ih =>
      intro q h
      have hd : Dequeue q = ((x, none), { q with items := xs }) := by
        unfold Dequeue
        rw [h]
      simp [dequeueN, hd]
      exact ih { q with items := xs } rfl

/-- Applying a list of options starting with one that succeeds. -/
theorem foldlM_opts_cons {T : Type} (o : QOption T) (opts : List (QOption T))
    (q q1 : queue T) (h : o q = Except.ok q1) :
    (o :: opts).foldlM (fun s opt => opt s) q =
      opts.foldlM (fun s opt => opt s) q1 := by
  rw [List.foldlM_cons, h]
  rfl

/-- Applying a list of options starting with one that panics. -/
theorem foldlM_opts_cons_error {T : Type} (o : QOption T) (opts : List (QOption T))
    (q : queue T) (e : String) (h : o q = Except.error e) :
    (o :: opts).foldlM (fun s opt => opt s) q = Except.error e := by
  rw [List.foldlM_cons, h]
  rfl

/-- Applying the `WithCapacity n` option with a valid `n` sets the capacity
field and nothing else. -/
theorem WithCapacity_ok {T : Type} (n c : Int) (l : List T)
    (h : UnlimitedCapacity ≤ n) :
    WithCapacity n { capacity := c, items := l } =
      Except.ok { capacity := n, items := l } := by
  unfold WithCapacity
  rw [if_neg (not_lt.mpr h)]

/-- Constructing with a single valid `WithCapacity n` option yields an empty
queue with capacity `n`. -/
theorem newQueue_withCapacity {T : Type} (n : Int) (h : UnlimitedCapacity ≤ n) :
    newQueue (T := T) [WithCapacity n] = Except.ok { capacity := n, items := [] } := by
  unfold newQueue
  rw [foldlM_opts_cons _ _ _ _
    (WithCapacity_ok (T := T) n UnlimitedCapacity [] h)]
  rfl

/-- Constructing with `WithCapacity n` for `n` below the sentinel panics,
aborting construction with the panic message. -/
theorem newQueue_invalid {T : Type} (n : Int) (h : n < UnlimitedCapacity) :
    newQueue (T := T) [WithCapacity n] =
      Except.error "cannot specify arbitrary negative capacity" := by
  have hif : WithCapacity (T := T) n { capacity := UnlimitedCapacity, items := [] } =
      Except.error "cannot specify arbitrary negative capacity" := by
    unfold WithCapacity
    rw [if_pos h]
  unfold newQueue
  rw [foldlM_opts_cons_error _ _ _ _ hif]

/-- Enqueuing a list into a bounded queue with enough room succeeds at every
step and appends the list to the stored items. -/
theorem enqueueAll_room {T : Type} :
    ∀ (vs : List T) (q : queue T),
      (q.items.length : Int) + vs.length ≤ q.capacity →
      enqueueAll q vs = (vs.map fun _ => none, { q with items := q.items ++ vs }) := by
  intro vs
  induction vs with
  | nil => intro q h; simp [enqueueAll]
  | cons v vs ih =>
      intro q h
      have he := Enqueue_room q v (by
        simp only [List.length_cons] at h
        push_cast at h
        omega)
      have hrest := ih { q with items := q.items ++ [v] } (by
        simp only [List.length_append, List.length_cons, List.length_nil] at h ⊢
        push_cast at h ⊢
        omega)
      simp [enqueueAll, he, hrest]

/-! ### Claim theorems -/

/-- C1: enqueuing N distinct values v1..vN in order into an empty unbounded
queue (the queue `newQueue` builds with no options), with no interleaved
dequeues, makes every `Enqueue` succeed, and then dequeuing N times returns
v1..vN in the same order, each with a success (`nil`-error) result. -/
theorem fifo_order {T : Type} [Inhabited T] (vs : List T) (_hnd : vs.Nodup) :
    newQueue (T := T) [] =
      Except.ok { capacity := UnlimitedCapacity, items := [] } ∧
    (enqueueAll ({ capacity := UnlimitedCapacity, items := [] } : queue T) vs).1 =
      vs.map (fun _ => none) ∧
    dequeueN (enqueueAll ({ capacity := UnlimitedCapacity, items := [] } : queue T) vs).2
      vs.length = vs.map (fun v => (v, none)) := by
  have hq : ({ capacity := UnlimitedCapacity, items := [] } : queue T).capacity < 0 := by
    show UnlimitedCapacity < 0
    decide
  have hall := enqueueAll_unbounded vs
    ({ capacity := UnlimitedCapacity, items := [] } : queue T) hq
  refine ⟨rfl, ?_, ?_⟩
  · rw [hall]
  · rw [hall]
    exact dequeueN_drain vs _ (by simp)

/-- Witness for C1 at the concrete distinct list `[10, 20, 30]`. -/
theorem fifo_order_witness :
    newQueue (T := Int) [] =
      Except.ok { capacity := UnlimitedCapacity, items := [] } ∧
    (enqueueAll ({ capacity := UnlimitedCapacity, items := [] } : queue Int)
        [10, 20, 30]).1 = [10, 20, 30].map (fun _ => none) ∧
    dequeueN (enqueueAll ({ capacity := UnlimitedCapacity, items := [] } : queue Int)
        [10, 20, 30]).2 3 = [10, 20, 30].map (fun v => (v, none)) :=
  fifo_order [10, 20, 30] (by decide)

/-- C3: `Dequeue` and `Peek` on an empty queue — in particular on any queue
`newQueue` returns, whose `items` are always empty — fail with
`ErrUnderflow`, return the zero value of `T`, and leave the state unchanged
(`Dequeue` hands back the very same state; `Peek` performs no assignment). -/
theorem underflow_empty {T : Type} [Inhabited T] (q : queue T) (h : q.items = []) :
    Dequeue q = ((default, some QueueError.ErrUnderflow), q) ∧
    Peek q = (default, some QueueError.ErrUnderflow) ∧
    ∀ (opts : List (QOption T)) (q0 : queue T),
      newQueue opts = Except.ok q0 → q0.items = [] := by
  refine ⟨?_, ?_, newQueue_items⟩
  · unfold Dequeue
    rw [h]
  · unfold Peek
    rw [h]

/-- Witness for C3 at `T = Int` and the freshly constructed unbounded queue. -/
theorem underflow_empty_witness :
    Dequeue ({ capacity := UnlimitedCapacity, items := [] } : queue Int) =
      ((default, some QueueError.ErrUnderflow),
        { capacity := UnlimitedCapacity, items := [] }) ∧
    Peek ({ capacity := UnlimitedCapacity, items := [] } : queue Int) =
      (default, some QueueError.ErrUnderflow) ∧
    ∀ (opts : List (QOption Int)) (q0 : queue Int),
      newQueue opts = Except.ok q0 → q0.items = [] :=
  underflow_empty { capacity := UnlimitedCapacity, items := [] } rfl

/-- C5: any number of `Peek` calls leaves the state — size, capacity and the
stored items — unchanged, hence also what the next `Dequeue` returns; and on
a non-empty queue `Peek` succeeds and returns exactly the front element that
the next `Dequeue` returns. -/
theorem peek_non_mutation {T : Type} [Inhabited T] (q : queue T) (n : Nat) :
    run q (List.replicate n QueueOp.peek) = q ∧
    Dequeue (run q (List.replicate n QueueOp.peek)) = Dequeue q ∧
    (q.items ≠ [] →
      (Peek q).2 = none ∧ (Dequeue q).1.2 = none ∧ (Peek q).1 = (Dequeue q).1.1) := by
  have hrun : ∀ m, run q (List.replicate m QueueOp.peek) = q := by
    intro m
    induction m with
    | zero => rfl
    | succ m ih =>
        calc run q (List.replicate (m + 1) QueueOp.peek)
            = run (step q QueueOp.peek) (List.replicate m QueueOp.peek) := rfl
          _ = q := ih
  refine ⟨hrun n, by rw [hrun n], ?_⟩
  intro hne
  cases hitems : q.items with
  | nil => exact absurd hitems hne
  | cons x xs =>
      unfold Peek Dequeue
      rw [hitems]
      exact ⟨rfl, rfl, rfl⟩

/-- Witness for C5 at a concrete two-element queue and three `Peek` calls. -/
theorem peek_non_mutation_witness :
    run ({ capacity := 5, items := [8, 9] } : queue Int)
      (List.replicate 3 QueueOp.peek) = { capacity := 5, items := [8, 9] } ∧
    Dequeue (run ({ capacity := 5, items := [8, 9] } : queue Int)
      (List.replicate 3 QueueOp.peek)) =
      Dequeue ({ capacity := 5, items := [8, 9] } : queue Int) ∧
    ((({ capacity := 5, items := [8, 9] } : queue Int)).items ≠ [] →
      (Peek ({ capacity := 5, items := [8, 9] } : queue Int)).2 = none ∧
      (Dequeue ({ capacity := 5, items := [8, 9] } : queue Int)).1.2 = none ∧
      (Peek ({ capacity := 5, items := [8, 9] } : queue Int)).1 =
        (Dequeue ({ capacity := 5, items := [8, 9] } : queue Int)).1.1) :=
  peek_non_mutation ({ capacity := 5, items := [8, 9] } : queue Int) 3

/-- C2: on a queue constructed with `WithCapacity k`, `k` arbitrary enqueues
all succeed (leaving items = vs), the `(k+1)`th enqueue fails with
`ErrOverflow` and returns the state — hence `Size` and the stored items —
unchanged, and when `k ≥ 1`, one `Dequeue` succeeds, after it `Size` is
`k - 1`, and the next `Enqueue` succeeds. -/
theorem overflow_boundary {T : Type} [Inhabited T] (k : Nat) (vs : List T)
    (hlen : vs.length = k) :
    newQueue (T := T) [WithCapacity (k : Int)] =
      Except.ok { capacity := (k : Int), items := [] } ∧
    enqueueAll ({ capacity := (k : Int), items := [] } : queue T) vs =
      (vs.map (fun _ => none), { capacity := (k : Int), items := vs }) ∧
    (∀ w : T, Enqueue ({ capacity := (k : Int), items := vs } : queue T) w =
      (some QueueError.ErrOverflow, { capacity := (k : Int), items := vs })) ∧
    (1 ≤ k →
      (Dequeue ({ capacity := (k : Int), items := vs } : queue T)).1.2 = none ∧
      Size (Dequeue ({ capacity := (k : Int), items := vs } : queue T)).2 =
        (k : Int) - 1 ∧
      ∀ w : T,
        (Enqueue (Dequeue ({ capacity := (k : Int), items := vs } : queue T)).2 w).1 =
          none) := by
  refine ⟨newQueue_withCapacity (k : Int) (by unfold UnlimitedCapacity; omega),
    ?_, ?_, ?_⟩
  · rw [enqueueAll_room vs _ (by simp [hlen])]
    rfl
  · intro w
    exact Enqueue_full _ w (by simp) (by simp [hlen])
  · intro hk
    have hne : vs ≠ [] := by
      intro hnil
      rw [hnil] at hlen
      simp at hlen
      omega
    obtain ⟨x, xs, hvs⟩ := List.exists_cons_of_ne_nil hne
    subst hvs
    have hd : Dequeue ({ capacity := (k : Int), items := x :: xs } : queue T) =
        ((x, none), { capacity := (k : Int), items := xs }) := rfl
    have hxs : xs.length + 1 = k := by simpa [List.length_cons] using hlen
    refine ⟨by rw [hd], ?_, ?_⟩
    · rw [hd]
      show ((xs.length : Int)) = (k : Int) - 1
      omega
    · intro w
      rw [hd]
      rw [Enqueue_room _ w (by show ((xs.length : Int)) < (k : Int); omega)]

/-- Witness for C2 at `k = 2` with the enqueued values `[3, 4]` and the
extra value `99`. -/
theorem overflow_boundary_witness :
    newQueue (T := Int) [WithCapacity ((2 : Nat) : Int)] =
      Except.ok { capacity := ((2 : Nat) : Int), items := [] } ∧
    enqueueAll ({ capacity := ((2 : Nat) : Int), items := [] } : queue Int) [3, 4] =
      ([3, 4].map (fun _ => none), { capacity := ((2 : Nat) : Int), items := [3, 4] }) ∧
    Enqueue ({ capacity := ((2 : Nat) : Int), items := [3, 4] } : queue Int) 99 =
      (some QueueError.ErrOverflow,
        { capacity := ((2 : Nat) : Int), items := [3, 4] }) ∧
    (Dequeue ({ capacity := ((2 : Nat) : Int), items := [3, 4] } : queue Int)).1.2 =
      none ∧
    Size (Dequeue ({ capacity := ((2 : Nat) : Int), items := [3, 4] } : queue Int)).2 =
      ((2 : Nat) : Int) - 1 ∧
    (Enqueue
      (Dequeue ({ capacity := ((2 : Nat) : Int), items := [3, 4] } : queue Int)).2
      99).1 = none := by
  have h := overflow_boundary (T := Int) 2 [3, 4] rfl
  have h4 := h.2.2.2 (by decide)
  exact ⟨h.1, h.2.1, h.2.2.1 99, h4.1, h4.2.1, h4.2.2 99⟩

/-- The all-zero-capacity empty queue is a fixed point of every API call. -/
theorem run_zero_cap {T : Type} [Inhabited T] :
    ∀ (ops : List (QueueOp T)),
      run ({ capacity := 0, items := [] } : queue T) ops =
        { capacity := 0, items := [] } := by
  intro ops
  induction ops with
  | nil => rfl
  | cons op rest ih =>
      have hstep : step ({ capacity := 0, items := [] } : queue T) op =
          { capacity := 0, items := [] } := by
        cases op with
        | enqueue v =>
            show (Enqueue ({ capacity := 0, items := [] } : queue T) v).2 = _
            rw [Enqueue_full _ v (by simp) (by simp)]
        | dequeue => rfl
        | peek => rfl
        | size => rfl
      calc run ({ capacity := 0, items := [] } : queue T) (op :: rest)
          = run (step ({ capacity := 0, items := [] } : queue T) op) rest := rfl
        _ = { capacity := 0, items := [] } := by rw [hstep]; exact ih

/-- C6: a queue constructed with `WithCapacity 0` rejects every `Enqueue`
with `ErrOverflow`, and its `Size` is `0` after every finite sequence of
operations. -/
theorem zero_capacity {T : Type} [Inhabited T] (ops : List (QueueOp T)) (v : T) :
    newQueue (T := T) [WithCapacity 0] =
      Except.ok { capacity := 0, items := [] } ∧
    (Enqueue (run ({ capacity := 0, items := [] } : queue T) ops) v).1 =
      some QueueError.ErrOverflow ∧
    Size (run ({ capacity := 0, items := [] } : queue T) ops) = 0 := by
  refine ⟨newQueue_withCapacity 0 (by decide), ?_, ?_⟩
  · rw [run_zero_cap ops, Enqueue_full _ v (by simp) (by simp)]
  · rw [run_zero_cap ops]
    rfl

/-- C7: constructing a queue with `WithCapacity n` for `n` strictly below
the unbounded sentinel panics — construction aborts with the panic message
instead of returning a queue — while for every `n ≥ -1` construction
returns an empty queue of capacity `n` without panicking. -/
theorem invalid_capacity_aborts {T : Type} (n : Int) :
    (n < UnlimitedCapacity →
      newQueue (T := T) [WithCapacity n] =
        Except.error "cannot specify arbitrary negative capacity") ∧
    (UnlimitedCapacity ≤ n →
      newQueue (T := T) [WithCapacity n] =
        Except.ok { capacity := n, items := [] }) :=
  ⟨newQueue_invalid n, newQueue_withCapacity n⟩

/-- Witness for C7 at the invalid capacity `-2` and the valid capacity `7`. -/
theorem invalid_capacity_aborts_witness :
    newQueue (T := Int) [WithCapacity (-2)] =
      Except.error "cannot specify arbitrary negative capacity" ∧
    newQueue (T := Int) [WithCapacity 7] =
      Except.ok { capacity := 7, items := [] } :=
  ⟨(invalid_capacity_aborts (-2)).1 (by decide),
    (invalid_capacity_aborts 7).2 (by decide)⟩

/-- C8: `newQueue` applies its options sequentially in order, so the last
`WithCapacity` wins — for valid capacities `a` and `b`,
`newQueue [WithCapacity a, WithCapacity b]` equals
`newQueue [WithCapacity b]` — and with no options the queue is unbounded. -/
theorem options_applied_in_order {T : Type} (a b : Int)
    (ha : UnlimitedCapacity ≤ a) (hb : UnlimitedCapacity ≤ b) :
    newQueue (T := T) [WithCapacity a, WithCapacity b] =
      newQueue (T := T) [WithCapacity b] ∧
    newQueue (T := T) [] =
      Except.ok { capacity := UnlimitedCapacity, items := [] } := by
  constructor
  · rw [newQueue_withCapacity b hb]
    unfold newQueue
    rw [foldlM_opts_cons _ _ _ _
      (WithCapacity_ok (T := T) a UnlimitedCapacity [] ha)]
    rw [foldlM_opts_cons _ _ _ _ (WithCapacity_ok (T := T) b a [] hb)]
    rfl
  · rfl

/-- Witness for C8 at the capacities `a = 3`, `b = 5`. -/
theorem options_applied_in_order_witness :
    newQueue (T := Int) [WithCapacity 3, WithCapacity 5] =
      newQueue (T := Int) [WithCapacity 5] ∧
    newQueue (T := Int) [] =
      Except.ok { capacity := UnlimitedCapacity, items := [] } :=
  options_applied_in_order 3 5 (by decide) (by decide)

/-- C10: the call `WithCapacity n` itself never panics — it returns the
option closure for every `n`, including `n < -1` — and the panic for an
invalid capacity is raised only when the returned option runs against a
queue during construction. -/
theorem withCapacity_call_never_panics {T : Type} (n : Int) :
    WithCapacityCall (T := T) n = Except.ok (WithCapacity n) ∧
    (n < UnlimitedCapacity → (newQueue (T := T) [WithCapacity n]).isOk = false) := by
  refine ⟨rfl, fun h => ?_⟩
  rw [newQueue_invalid n h]
  rfl

/-- Witness for C10 at the invalid capacity `-5`. -/
theorem withCapacity_call_never_panics_witness :
    WithCapacityCall (T := Int) (-5) = Except.ok (WithCapacity (-5)) ∧
    (newQueue (T := Int) [WithCapacity (-5)]).isOk = false :=
  ⟨(withCapacity_call_never_panics (-5)).1,
    (withCapacity_call_never_panics (-5)).2 (by decide)⟩

/-- The size after a run equals the starting size plus the successful
enqueues minus the successful dequeues. -/
theorem run_size_eq {T : Type} [Inhabited T] :
    ∀ (ops : List (QueueOp T)) (q : queue T),
      Size (run q ops) = Size q + (succEnq q ops : Int) - succDeq q ops := by
  intro ops
  induction ops with
  | nil =>
      intro q
      simp [run, succEnq, succDeq]
  | cons op rest ih =>
      intro q
      have hrun : run q (op :: rest) = run (step q op) rest := rfl
      rw [hrun]
      cases op with
      | enqueue v =>
          by_cases hc : q.capacity ≥ 0 ∧ (q.items.length : Int) + 1 > q.capacity
          · have he : Enqueue q v = (some QueueError.ErrOverflow, q) := by
              unfold Enqueue
              rw [if_pos hc]
            have hstep : step q (QueueOp.enqueue v) = q := by
              show (Enqueue q v).2 = q
              rw [he]
            have hE : succEnq q (QueueOp.enqueue v :: rest) = succEnq q rest := by
              simp [succEnq, he, hstep]
            have hD : succDeq q (QueueOp.enqueue v :: rest) = succDeq q rest := by
              simp [succDeq, hstep]
            rw [hstep, hE, hD, ih q]
          · have he : Enqueue q v = (none, { q with items := q.items ++ [v] }) := by
              unfold Enqueue
              rw [if_neg hc]
            have hstep : step q (QueueOp.enqueue v) =
                { q with items := q.items ++ [v] } := by
              show (Enqueue q v).2 = _
              rw [he]
            have hsz : Size ({ q with items := q.items ++ [v] } : queue T) =
                Size q + 1 := by
              simp [Size]
            have hE : succEnq q (QueueOp.enqueue v :: rest) =
                1 + succEnq { q with items := q.items ++ [v] } rest := by
              simp [succEnq, he, hstep]
            have hD : succDeq q (QueueOp.enqueue v :: rest) =
                succDeq { q with items := q.items ++ [v] } rest := by
              simp [succDeq, hstep]
            rw [hstep, hE, hD, ih { q with items := q.items ++ [v] }, hsz]
            push_cast
            ring
      | dequeue =>
          cases hitems : q.items with
          | nil =>
              have hd : Dequeue q = ((default, some QueueError.ErrUnderflow), q) := by
                unfold Dequeue
                rw [hitems]
              have hstep : step q QueueOp.dequeue = q := by
                show (Dequeue q).2 = q
                rw [hd]
              have hE : succEnq q (QueueOp.dequeue :: rest) = succEnq q rest := by
                simp [succEnq, hstep]
              have hD : succDeq q (QueueOp.dequeue :: rest) = succDeq q rest := by
                simp [succDeq, hd, hstep]
              rw [hstep, hE, hD, ih q]
          | cons x xs =>
              have hd : Dequeue q = ((x, none), { q with items := xs }) := by
                unfold Dequeue
                rw [hitems]
              have hstep : step q QueueOp.dequeue = { q with items := xs } := by
                show (Dequeue q).2 = _
                rw [hd]
              have hsz : Size q = Size ({ q with items := xs } : queue T) + 1 := by
                simp [Size, hitems]
              have hE : succEnq q (QueueOp.dequeue :: rest) =
                  succEnq { q with items := xs } rest := by
                simp [succEnq, hstep]
              have hD : succDeq q (QueueOp.dequeue :: rest) =
                  1 + succDeq { q with items := xs } rest := by
                simp [succDeq, hd, hstep]
              rw [hstep, hE, hD, ih { q with items := xs }, hsz]
              push_cast
              ring
      | peek =>
          have hE : succEnq q (QueueOp.peek :: rest) = succEnq q rest := by
            simp [succEnq, step]
          have hD : succDeq q (QueueOp.peek :: rest) = succDeq q rest := by
            simp [succDeq, step]
          rw [hE, hD]
          exact ih q
      | size =>
          have hE : succEnq q (QueueOp.size :: rest) = succEnq q rest := by
            simp [succEnq, step]
          have hD : succDeq q (QueueOp.size :: rest) = succDeq q rest := by
            simp [succDeq, step]
          rw [hE, hD]
          exact ih q

/-- One API call keeps the size within a bounded capacity. -/
theorem step_size_le_capacity {T : Type} [Inhabited T] (q : queue T)
    (op : QueueOp T) (h0 : 0 ≤ q.capacity) (h : Size q ≤ q.capacity) :
    Size (step q op) ≤ q.capacity := by
  cases op with
  | enqueue v =>
      by_cases hc : q.capacity ≥ 0 ∧ (q.items.length : Int) + 1 > q.capacity
      · have he : Enqueue q v = (some QueueError.ErrOverflow, q) := by
          unfold Enqueue
          rw [if_pos hc]
        rw [show (step q (QueueOp.enqueue v)) = (Enqueue q v).2 from rfl, he]
        exact h
      · have he : Enqueue q v = (none, { q with items := q.items ++ [v] }) := by
          unfold Enqueue
          rw [if_neg hc]
        rw [show (step q (QueueOp.enqueue v)) = (Enqueue q v).2 from rfl, he]
        have hlt : (q.items.length : Int) + 1 ≤ q.capacity := by
          rcases not_and_or.mp hc with hbad | hle
          · exact absurd h0 hbad
          · omega
        show (((q.items ++ [v]).length : Nat) : Int) ≤ q.capacity
        simp only [List.length_append, List.length_cons, List.length_nil]
        push_cast
        omega
  | dequeue =>
      cases hitems : q.items with
      | nil =>
          have hstep : step q QueueOp.dequeue = q := by
            show (Dequeue q).2 = q
            unfold Dequeue
            rw [hitems]
          rw [hstep]
          exact h
      | cons x xs =>
          have hstep : step q QueueOp.dequeue = { q with items := xs } := by
            show (Dequeue q).2 = _
            unfold Dequeue
            rw [hitems]
          rw [hstep]
          have : Size q = (xs.length : Int) + 1 := by
            simp [Size, hitems]
          show ((xs.length : Nat) : Int) ≤ q.capacity
          omega
  | peek => exact h
  | size => exact h

/-- A whole run keeps the size within a bounded capacity. -/
theorem run_size_le_capacity {T : Type} [Inhabited T] :
    ∀ (ops : List (QueueOp T)) (q : queue T), 0 ≤ q.capacity →
      Size q ≤ q.capacity → Size (run q ops) ≤ q.capacity := by
  intro ops
  induction ops with
  | nil => intro q _ h; exact h
  | cons op rest ih =>
      intro q h0 h
      have hcap := step_capacity q op
      have hrest := ih (step q op) (by rw [hcap]; exact h0)
        (by rw [hcap]; exact step_size_le_capacity q op h0 h)
      rw [hcap] at hrest
      exact hrest

/-- C4: after every finite sequence of operations on a freshly constructed
queue, `Size` equals the number of successful enqueues minus the number of
successful dequeues, is never negative, and never exceeds the capacity when
the capacity is bounded. -/
theorem size_invariant {T : Type} [Inhabited T] (opts : List (QOption T))
    (q0 : queue T) (h0 : newQueue opts = Except.ok q0) (ops : List (QueueOp T)) :
    Size (run q0 ops) = (succEnq q0 ops : Int) - succDeq q0 ops ∧
    0 ≤ Size (run q0 ops) ∧
    (0 ≤ q0.capacity → Size (run q0 ops) ≤ q0.capacity) := by
  have hi : q0.items = [] := newQueue_items opts q0 h0
  have hsz : Size q0 = 0 := by simp [Size, hi]
  refine ⟨?_, ?_, ?_⟩
  · have heq := run_size_eq ops q0
    rw [hsz] at heq
    omega
  · show (0 : Int) ≤ ((run q0 ops).items.length : Int)
    positivity
  · intro hcap
    exact run_size_le_capacity ops q0 hcap (by rw [hsz]; exact hcap)

/-- Witness for C4: a capacity-5 queue under the operation sequence
enqueue 7, peek, enqueue 8, dequeue, dequeue, size. -/
theorem size_invariant_witness :
    Size (run ({ capacity := 5, items := [] } : queue Int)
        [QueueOp.enqueue 7, QueueOp.peek, QueueOp.enqueue 8, QueueOp.dequeue,
          QueueOp.dequeue, QueueOp.size]) =
      (succEnq ({ capacity := 5, items := [] } : queue Int)
        [QueueOp.enqueue 7, QueueOp.peek, QueueOp.enqueue 8, QueueOp.dequeue,
          QueueOp.dequeue, QueueOp.size] : Int) -
      succDeq ({ capacity := 5, items := [] } : queue Int)
        [QueueOp.enqueue 7, QueueOp.peek, QueueOp.enqueue 8, QueueOp.dequeue,
          QueueOp.dequeue, QueueOp.size] ∧
    0 ≤ Size (run ({ capacity := 5, items := [] } : queue Int)
        [QueueOp.enqueue 7, QueueOp.peek, QueueOp.enqueue 8, QueueOp.dequeue,
          QueueOp.dequeue, QueueOp.size]) ∧
    Size (run ({ capacity := 5, items := [] } : queue Int)
        [QueueOp.enqueue 7, QueueOp.peek, QueueOp.enqueue 8, QueueOp.dequeue,
          QueueOp.dequeue, QueueOp.size]) ≤
      ({ capacity := 5, items := [] } : queue Int).capacity := by
  have h := size_invariant [WithCapacity 5] ({ capacity := 5, items := [] } : queue Int)
    rfl
    [QueueOp.enqueue 7, QueueOp.peek, QueueOp.enqueue 8, QueueOp.dequeue,
      QueueOp.dequeue, QueueOp.size]
  exact ⟨h.1, h.2.1, h.2.2 (by decide)⟩

end GoQueue
